import Mathlib

/-!
Verification development for the cockpit terminal-multiplexer library.

The definitions below are a shallow embedding of the Rust sources:

* `src/manager.rs` — the `PaneManager` (layout state, spawn/close,
  focus cycling, expansion toggles, click dispatch, the input encoder
  `key_to_bytes`, and the layout recomputation `recalculate_layout` /
  `recalculate_sub_panes` / `calculate_initial_pane_size`);
* `src/arrows.rs` — arrow hit-testing (`up_arrow_at_position`,
  `down_arrow_at_position`, `horizontal_arrow_at_position`);
* `src/pane.rs` — `PaneState`, `PaneSize`, `SpawnConfig`, `is_alive`;
* `src/pty.rs` — the monitor worker (`spawn_monitor_task`) and the
  state-watch initialisation.

Conventions of the embedding:

* `u16`/`u64`/`u32` values are `Nat`.  Rust `saturating_sub` is `Nat`
  subtraction (which is itself truncated at zero).  The two places where
  the source uses a plain `-` that can underflow (`width / 2 - 1` and
  `width / 4 - 1` in `calculate_initial_pane_size`) are modelled with
  explicit wrap-around at `2 ^ 16` (`wrapSub16`), matching release-mode
  Rust.  All other plain `+`/`-` in the layout code cannot leave the
  `u16` range when the inputs are in range, so `Nat` arithmetic agrees.
* Rust `HashMap` key *sets* are modelled exactly, but a `HashMap`'s
  iteration order is unspecified; the manager state therefore carries
  the key enumeration `panesKeys` explicitly, and the transition
  relation (`Step`) allows it to be an arbitrary permutation of the
  true key set.  `cached_areas` is rebuilt from scratch by
  `recalculate_layout` in `pane_order` order, so it is modelled as the
  association list produced in exactly that order (its keys are
  pairwise distinct in every reachable state).
* The manager field `layout : Option<Layout>` (an internal tree derived
  from `pane_order` alone, used only by `calculate_areas`) and the
  event/plugin machinery are not referenced by any claim and are not
  part of the modelled state.
-/

/-- `ratatui::layout::Rect`: position and size in terminal cells (all `u16`). -/
structure Rect where
  x : Nat
  y : Nat
  width : Nat
  height : Nat
deriving DecidableEq

/-- `Rect::default()`: the zero rectangle. -/
def Rect.zero : Rect := ⟨0, 0, 0, 0⟩

/-- `PaneSize { rows, cols }` (both `u16`). -/
structure PaneSize where
  rows : Nat
  cols : Nat
deriving DecidableEq

/-- The `[bool; 4]` array `expanded_positions` of `PaneManager`. -/
structure Expanded4 where
  e0 : Bool
  e1 : Bool
  e2 : Bool
  e3 : Bool
deriving DecidableEq

/-- Array indexing `expanded_positions[i]` (the source only indexes with `i < 4`). -/
def Expanded4.get (e : Expanded4) : Nat → Bool
  | 0 => e.e0
  | 1 => e.e1
  | 2 => e.e2
  | 3 => e.e3
  | _ => false

/-- `expanded_positions[position] = !expanded_positions[position]`
(the source performs this only under its `position < 4` guard). -/
def Expanded4.flip (e : Expanded4) : Nat → Expanded4
  | 0 => { e with e0 := !e.e0 }
  | 1 => { e with e1 := !e.e1 }
  | 2 => { e with e2 := !e.e2 }
  | 3 => { e with e3 := !e.e3 }
  | _ => e

/-- The `[Option<bool>; 2]` array `horizontal_expanded` of `PaneManager`. -/
structure HExp2 where
  h0 : Option Bool
  h1 : Option Bool
deriving DecidableEq

/-- Array indexing `horizontal_expanded[row]` (the source only indexes with `row < 2`). -/
def HExp2.get (h : HExp2) : Nat → Option Bool
  | 0 => h.h0
  | 1 => h.h1
  | _ => none

/-- Array update `horizontal_expanded[row] = v` under the source's `row < 2` guard. -/
def HExp2.set (h : HExp2) : Nat → Option Bool → HExp2
  | 0, v => { h with h0 := v }
  | 1, v => { h with h1 := v }
  | _, _ => h

/-- `(f32::from(height) * 0.7).round() as u16` with the fixed
`sub_pane_ratio = 0.7`.  For every `height < 2 ^ 16` the `f32`
computation in the source yields exactly `round-half-away(7 * height / 10)`
(`0.7f32` is `11744051 / 2 ^ 24`, slightly below `0.7`; the product is far
closer to `7 * height / 10` than to any other representable value, and at
the half-integer points `height ≡ 5 [MOD 10]` the product rounds to the
exact half, which `f32::round` then rounds away from zero), which equals
`(7 * height + 5) / 10` in integer arithmetic. -/
def panesHeight (height : Nat) : Nat := (7 * height + 5) / 10

/-- `u16` subtraction with release-mode wrap-around (used only where the
source's plain `-` can underflow). -/
def wrapSub16 (a b : Nat) : Nat := (a + 65536 - b) % 65536

/-- The four primary slot widths computed by `recalculate_layout`
(lines 331–346 of `manager.rs`) from the full width and the two rows'
horizontal-expansion states. -/
def primaryWidths (w : Nat) (hexp0 hexp1 : Option Bool) : Nat × Nat × Nat × Nat :=
  let quarterWidth := w / 4
  let halfWidth := w / 2
  let w01 : Nat × Nat :=
    match hexp0 with
    | none => (quarterWidth, quarterWidth)
    | some true => (halfWidth, 0)
    | some false => (0, halfWidth)
  let w23 : Nat × Nat :=
    match hexp1 with
    | none => (quarterWidth, w - quarterWidth * 3)
    | some true => (halfWidth, 0)
    | some false => (0, halfWidth)
  (w01.1, w01.2, w23.1, w23.2)

/-- The four primary slot rectangles computed by `recalculate_layout`
(`all_areas`, lines 348–400 of `manager.rs`). -/
def primarySlotAreas (a : Rect) (exp : Expanded4) (hexp : HExp2) : List Rect :=
  let ph := panesHeight a.height
  let ws := primaryWidths a.width hexp.h0 hexp.h1
  let w0 := ws.1
  let w2 := ws.2.2.1
  let halfWidth := a.width / 2
  let hgt : Nat → Nat := fun pos => if exp.get pos then a.height else ph
  [ ⟨a.x, a.y, w0, hgt 0⟩,
    ⟨a.x + w0, a.y, ws.2.1, hgt 1⟩,
    ⟨a.x + halfWidth, a.y, w2, hgt 2⟩,
    ⟨a.x + halfWidth + w2, a.y, ws.2.2.2, hgt 3⟩ ]

/-- The sub-pane strip rectangle handed to `recalculate_sub_panes`
(lines 322–328 of `manager.rs`): it overlaps the primary strip by one row. -/
def subPanesArea (a : Rect) : Rect :=
  let ph := panesHeight a.height
  ⟨a.x, a.y + (ph - 1), a.width, (a.height - ph) + 1⟩

/-- One iteration of the `for i in 0..8` loop of `recalculate_sub_panes`
(lines 461–528 of `manager.rs`).  The source's `Some(true)` and
`Some(false)` arms of the final `match` compute identical `(x, width)`
values, so they are merged into one `some _` arm here. -/
def subPaneRect (area : Rect) (exp : Expanded4) (hexp : HExp2) (i : Nat) : Rect :=
  let position := i / 2
  let row := position / 2
  if exp.get position then Rect.zero
  else
    let h := hexp.get row
    let isHidden : Bool :=
      match h with
      | none => false
      | some true => position == 1 || position == 3
      | some false => position == 0 || position == 2
    if isHidden then Rect.zero
    else
      let quarterWidth := area.width / 4
      let halfWidth := area.width / 2
      let eighthWidth := area.width / 8
      let xw : Nat × Nat :=
        match h with
        | none =>
          (area.x + i * eighthWidth,
           if i == 7 then area.width - 7 * eighthWidth else eighthWidth)
        | some _ =>
          let localIdx := i % 2
          let baseX := if row == 0 then area.x else area.x + halfWidth
          (baseX + localIdx * quarterWidth, quarterWidth)
      ⟨xw.1, area.y, xw.2, area.height⟩

/-- The assignment loop of `recalculate_layout` (lines 407–415 of
`manager.rs`): the i-th slot area goes to the i-th pane of `pane_order`
if one exists, otherwise it becomes an empty-slot entry labelled `i + 1`. -/
def assignGo (order : List Nat) : Nat → List Rect → List (Nat × Rect) × List (Nat × Rect)
  | _, [] => ([], [])
  | i, a :: rest =>
    let ce := assignGo order (i + 1) rest
    match order[i]? with
    | some paneId => ((paneId, a) :: ce.1, ce.2)
    | none => (ce.1, (i + 1, a) :: ce.2)

/-- The three cached layout products of the manager
(`cached_areas`, `empty_pane_areas`, `sub_pane_areas`). -/
structure LayoutCache where
  cachedAreas : List (Nat × Rect)
  emptyPaneAreas : List (Nat × Rect)
  subPaneAreas : List Rect
deriving DecidableEq

/-- `recalculate_layout` as a function of the state it reads: when no
terminal size is stored it returns early and the old cache survives
unchanged; otherwise all three products are rebuilt from scratch. -/
def computeLayout (size : Option Rect) (order : List Nat) (exp : Expanded4) (hexp : HExp2)
    (old : LayoutCache) : LayoutCache :=
  match size with
  | none => old
  | some a =>
    let areas := primarySlotAreas a exp hexp
    let ce := assignGo order 0 areas
    { cachedAreas := ce.1,
      emptyPaneAreas := ce.2,
      subPaneAreas := (List.range 8).map (subPaneRect (subPanesArea a) exp hexp) }

/-- `SpawnConfig` of `pane.rs` (the `env` `HashMap` is an association list). -/
structure SpawnConfig where
  command : Option String
  args : List String
  size : PaneSize
  cwd : Option String
  env : List (String × String)
  scrollback : Nat
deriving DecidableEq

/-- The mutable state of `PaneManager` that the claims are about.
`panesKeys` is the key enumeration of the `panes : HashMap` (its order is
unspecified in Rust; the `Step` relation quantifies over it).  The
internal `layout` tree and the event/plugin machinery are omitted (no
claim mentions them). -/
structure PaneManager where
  maxPanes : Nat
  scrollbackLines : Nat
  panesKeys : List Nat
  focused : Option Nat
  nextId : Nat
  terminalSize : Option Rect
  paneOrder : List Nat
  expandedPositions : Expanded4
  horizontalExpanded : HExp2
  cache : LayoutCache
deriving DecidableEq

/-- `ManagerConfig`. -/
structure ManagerConfig where
  maxPanes : Nat
  scrollbackLines : Nat
deriving DecidableEq

/-- `ManagerConfig::default()`. -/
def ManagerConfig.default : ManagerConfig := ⟨4, 10000⟩

/-- `PaneManager::with_config` (which clamps `max_panes` to at most 4). -/
def PaneManager.withConfig (config : ManagerConfig) : PaneManager :=
  { maxPanes := min config.maxPanes 4,
    scrollbackLines := config.scrollbackLines,
    panesKeys := [],
    focused := none,
    nextId := 1,
    terminalSize := none,
    paneOrder := [],
    expandedPositions := ⟨false, false, false, false⟩,
    horizontalExpanded := ⟨none, none⟩,
    cache := ⟨[], [], []⟩ }

/-- `PaneManager::new()`. -/
def PaneManager.new : PaneManager := PaneManager.withConfig ManagerConfig.default

/-- Projection: the `cached_areas` association list. -/
def PaneManager.cachedAreas (m : PaneManager) : List (Nat × Rect) := m.cache.cachedAreas

/-- Projection: the `empty_pane_areas` list. -/
def PaneManager.emptyPaneAreas (m : PaneManager) : List (Nat × Rect) := m.cache.emptyPaneAreas

/-- Projection: the `sub_pane_areas` list. -/
def PaneManager.subPaneAreas (m : PaneManager) : List Rect := m.cache.subPaneAreas

/-- `PaneManager::recalculate_layout` (state effect only; the subsequent
PTY resize fan-out does not change the manager state). -/
def PaneManager.recalculateLayout (m : PaneManager) : PaneManager :=
  let c := computeLayout m.terminalSize m.paneOrder m.expandedPositions m.horizontalExpanded m.cache
  { m with cache := c }

/-- `PaneManager::set_terminal_size`: short-circuits when unchanged,
otherwise stores the size and recalculates. -/
def PaneManager.setTerminalSize (m : PaneManager) (size : Rect) : PaneManager :=
  if m.terminalSize = some size then m
  else ({ m with terminalSize := some size }).recalculateLayout

/-- `PaneManager::toggle_pane_expansion`. -/
def PaneManager.togglePaneExpansion (m : PaneManager) (position : Nat) : PaneManager :=
  if position < 4 then
    ({ m with expandedPositions := m.expandedPositions.flip position }).recalculateLayout
  else m

/-- The per-row state machine of `toggle_horizontal_expansion`
(lines 295–300 of `manager.rs`). -/
def toggleHState (current : Option Bool) (expandLeft : Bool) : Option Bool :=
  match current with
  | none => some expandLeft
  | some wasLeft => if wasLeft = expandLeft then none else some expandLeft

/-- `PaneManager::toggle_horizontal_expansion`. -/
def PaneManager.toggleHorizontalExpansion (m : PaneManager) (row : Nat) (expandLeft : Bool) :
    PaneManager :=
  if row < 2 then
    let hexp := m.horizontalExpanded.set row (toggleHState (m.horizontalExpanded.get row) expandLeft)
    ({ m with horizontalExpanded := hexp }).recalculateLayout
  else m

/-- `PaneManager::calculate_initial_pane_size` (lines 547–565 of
`manager.rs`).  The `1 | 2 | 3 | 4 | _` match over the future pane count
is an if-chain here; `width - 2` uses `saturating_sub` in the source
(hence plain `Nat` subtraction), while `width / 2 - 1` and
`width / 4 - 1` use plain `u16` subtraction (hence `wrapSub16`). -/
def PaneManager.calculateInitialPaneSize (m : PaneManager) : PaneSize :=
  match m.terminalSize with
  | some area =>
    let reducedHeight := panesHeight area.height
    let futurePaneCount := m.panesKeys.length + 1
    if futurePaneCount = 1 then ⟨reducedHeight - 2, area.width - 2⟩
    else if futurePaneCount = 2 then ⟨reducedHeight - 2, wrapSub16 (area.width / 2) 1⟩
    else ⟨reducedHeight - 2, wrapSub16 (area.width / 4) 1⟩
  | none => ⟨24, 80⟩

/-- The configuration `spawn` actually hands to `spawn_pty` (lines
150–154 of `manager.rs`): the caller's requested size is overwritten with
the calculated initial size, and a zero scrollback inherits the manager
default. -/
def PaneManager.effectiveSpawnConfig (m : PaneManager) (config : SpawnConfig) : SpawnConfig :=
  { config with
      size := m.calculateInitialPaneSize,
      scrollback := if config.scrollback = 0 then m.scrollbackLines else config.scrollback }

/-- The manager-state effect of a successful `spawn` (lines 137–187 of
`manager.rs`): mint `next_id`, insert into the registry (`newKeys` is the
resulting key enumeration), append to `pane_order`, auto-focus if
unfocused, recalculate.  The guard and the config are handled by
`PaneManager.spawn`. -/
def PaneManager.spawnState (m : PaneManager) (newKeys : List Nat) : PaneManager :=
  ({ m with
      panesKeys := newKeys,
      paneOrder := m.paneOrder ++ [m.nextId],
      focused := if m.focused = none then some m.nextId else m.focused,
      nextId := m.nextId + 1 }).recalculateLayout

/-- `PaneManager::spawn`: fails (returns `none`, the `Layout` error) when
the registry is full; otherwise returns the new state together with the
configuration passed on to `spawn_pty`. -/
def PaneManager.spawn (m : PaneManager) (config : SpawnConfig) (newKeys : List Nat) :
    Option (PaneManager × SpawnConfig) :=
  if m.panesKeys.length < m.maxPanes then
    some (m.spawnState newKeys, m.effectiveSpawnConfig config)
  else none

/-- `PaneManager::close_pane`: remove from the registry (`newKeys` is the
remaining key enumeration) and from `pane_order`, move focus to the first
remaining pane if the closed one was focused, recalculate. -/
def PaneManager.closePane (m : PaneManager) (paneId : Nat) (newKeys : List Nat) : PaneManager :=
  let order := m.paneOrder.filter (fun id => id != paneId)
  ({ m with
      panesKeys := newKeys,
      paneOrder := order,
      focused := if m.focused = some paneId then order.head? else m.focused }).recalculateLayout

/-- `PaneManager::set_focus` (only panes present in the registry accepted). -/
def PaneManager.setFocus (m : PaneManager) (paneId : Nat) : PaneManager :=
  if paneId ∈ m.panesKeys then { m with focused := some paneId } else m

/-- The body of `focus_next` (lines 627–638 of `manager.rs`), operating on
the key enumeration `ids` collected from `panes.keys()`: no-op when empty,
otherwise move to the successor position in `ids`, wrapping. -/
def focusNextIds (ids : List Nat) (focused : Option Nat) : Option Nat :=
  match ids.head? with
  | none => focused
  | some i0 =>
    let current := focused.getD i0
    let pos := (ids.findIdx? (fun id => id == current)).getD 0
    some (ids.getD ((pos + 1) % ids.length) 0)

/-- The body of `focus_prev` (lines 640–651 of `manager.rs`). -/
def focusPrevIds (ids : List Nat) (focused : Option Nat) : Option Nat :=
  match ids.head? with
  | none => focused
  | some i0 =>
    let current := focused.getD i0
    let pos := (ids.findIdx? (fun id => id == current)).getD 0
    let prevPos := if pos = 0 then ids.length - 1 else pos - 1
    some (ids.getD prevPos 0)

/-- `PaneManager::focus_next`. -/
def PaneManager.focusNext (m : PaneManager) : PaneManager :=
  { m with focused := focusNextIds m.panesKeys m.focused }

/-- `PaneManager::focus_prev`. -/
def PaneManager.focusPrev (m : PaneManager) : PaneManager :=
  { m with focused := focusPrevIds m.panesKeys m.focused }

/-- `PaneManager::pane_at_position` specialised to an association-list
iteration.  The rectangles of distinct panes never overlap, so the
unspecified `HashMap` iteration order of the source cannot change the
result; the list order stands in for it. -/
def paneAtPosition (x y : Nat) : List (Nat × Rect) → Option Nat
  | [] => none
  | (paneId, r) :: rest =>
    if r.x ≤ x ∧ x < r.x + r.width ∧ r.y ≤ y ∧ y < r.y + r.height then some paneId
    else paneAtPosition x y rest

/-- `PaneManager::focus_at_position`: focus the pane under the cursor,
reporting whether focus actually changed. -/
def PaneManager.focusAtPosition (m : PaneManager) (x y : Nat) (areas : List (Nat × Rect)) :
    PaneManager × Bool :=
  match paneAtPosition x y areas with
  | some paneId =>
    if m.focused ≠ some paneId then ({ m with focused := some paneId }, true)
    else (m, false)
  | none => (m, false)

/-- The vertical (down) arrow positions of `arrows.rs`. -/
inductive ArrowPosition where
  | pane111
  | pane122
  | pane211
  | pane222
deriving DecidableEq

/-- `ArrowPosition::pane_position`: which primary slot a down arrow expands. -/
def ArrowPosition.panePosition : ArrowPosition → Nat
  | .pane111 => 0
  | .pane122 => 1
  | .pane211 => 2
  | .pane222 => 3

/-- The horizontal arrow positions of `arrows.rs`. -/
inductive HorizontalArrowPosition where
  | pane112
  | pane121
  | pane212
  | pane221
deriving DecidableEq

/-- `HorizontalArrowPosition::source_position`: the primary slot under
which the arrow sits (row = position / 2, direction = position even). -/
def HorizontalArrowPosition.sourcePosition : HorizontalArrowPosition → Nat
  | .pane112 => 0
  | .pane121 => 1
  | .pane212 => 2
  | .pane221 => 3

/-- The arrow hit test shared by all three `*_arrow_at_position`
functions: a 5 × 3 box anchored one cell inside the bottom-left
(`isLeft`) or bottom-right corner of the carrier rectangle
(`ARROW_WIDTH = 5`, `ARROW_HEIGHT = 3`; the `saturating_sub`s are `Nat`
subtraction). -/
def arrowHit (x y : Nat) (r : Rect) (isLeft : Bool) : Bool :=
  let baseY := r.y + (r.height - (1 + 3))
  let baseX := if isLeft then r.x + 1 else r.x + (r.width - (1 + 5))
  decide (baseX ≤ x) && decide (x < baseX + 5) && decide (baseY ≤ y) && decide (y < baseY + 3)

/-- The shared loop shape of `down_arrow_at_position` and
`horizontal_arrow_at_position`: walk a fixed table of
`(sub-pane index, arrow, left-aligned)` entries, skip missing or
zero-sized sub-panes, return the first arrow whose box contains the
click. -/
def findArrow {α : Type} (x y : Nat) (subs : List Rect) :
    List (Nat × α × Bool) → Option α
  | [] => none
  | (idx, pos, isLeft) :: rest =>
    match subs[idx]? with
    | none => findArrow x y subs rest
    | some r =>
      if r.width = 0 ∨ r.height = 0 then findArrow x y subs rest
      else if arrowHit x y r isLeft then some pos
      else findArrow x y subs rest

/-- The fixed table of `down_arrow_at_position` (corner sub-panes 0, 3, 4, 7). -/
def downArrowConfigs : List (Nat × ArrowPosition × Bool) :=
  [(0, .pane111, true), (3, .pane122, false), (4, .pane211, true), (7, .pane222, false)]

/-- `down_arrow_at_position` of `arrows.rs`. -/
def downArrowAtPosition (x y : Nat) (subs : List Rect) : Option ArrowPosition :=
  findArrow x y subs downArrowConfigs

/-- The fixed table of `horizontal_arrow_at_position` (inner sub-panes 1, 2, 5, 6). -/
def horizontalArrowConfigs : List (Nat × HorizontalArrowPosition × Bool) :=
  [(1, .pane112, false), (2, .pane121, true), (5, .pane212, false), (6, .pane221, true)]

/-- `horizontal_arrow_at_position` of `arrows.rs`. -/
def horizontalArrowAtPosition (x y : Nat) (subs : List Rect) : Option HorizontalArrowPosition :=
  findArrow x y subs horizontalArrowConfigs

/-- The loop of `up_arrow_at_position` of `arrows.rs`, with the running
enumeration index made explicit: entries with index ≥ 4 or a collapsed
slot are skipped; `is_left` is `idx == 0 || idx == 2`. -/
def upArrowGo (x y : Nat) (expanded : Expanded4) : List (Nat × Rect) → Nat → Option Nat
  | [], _ => none
  | (_, r) :: rest, idx =>
    if 4 ≤ idx ∨ expanded.get idx = false then upArrowGo x y expanded rest (idx + 1)
    else if arrowHit x y r (idx == 0 || idx == 2) then some idx
    else upArrowGo x y expanded rest (idx + 1)

/-- `up_arrow_at_position` of `arrows.rs`. -/
def upArrowAtPosition (x y : Nat) (paneAreas : List (Nat × Rect)) (expanded : Expanded4) :
    Option Nat :=
  upArrowGo x y expanded paneAreas 0

/-- Insert a pane/rectangle pair before the first strictly larger `x`
(after all equal `x`s seen so far): the insertion step of a stable
insertion sort. -/
def insertByX (p : Nat × Rect) : List (Nat × Rect) → List (Nat × Rect)
  | [] => [p]
  | q :: qs => if p.2.x ≤ q.2.x then p :: q :: qs else q :: insertByX p qs

/-- The stable sort by `rect.x` performed by `handle_click`
(`sort_by_key` in Rust is stable, as is this insertion sort). -/
def sortByX : List (Nat × Rect) → List (Nat × Rect)
  | [] => []
  | p :: ps => insertByX p (sortByX ps)

/-- `PaneManager::handle_click` (lines 694–726 of `manager.rs`): the
four-stage dispatch, first match wins. -/
def PaneManager.handleClick (m : PaneManager) (x y : Nat) : PaneManager × Bool :=
  let areasVec := sortByX m.cachedAreas
  match upArrowAtPosition x y areasVec m.expandedPositions with
  | some position => (m.togglePaneExpansion position, true)
  | none =>
    match downArrowAtPosition x y m.subPaneAreas with
    | some arrow => (m.togglePaneExpansion arrow.panePosition, true)
    | none =>
      match horizontalArrowAtPosition x y m.subPaneAreas with
      | some arrow =>
        let sourcePosition := arrow.sourcePosition
        (m.toggleHorizontalExpansion (sourcePosition / 2) (sourcePosition % 2 == 0), true)
      | none => m.focusAtPosition x y m.cachedAreas

/-- `crossterm::event::KeyCode`, restricted to the variants
`key_to_bytes` distinguishes; `char` carries the Unicode scalar value,
and `other` stands for every remaining variant (all of which fall into
the final catch-all arm). -/
inductive KeyCode where
  | char (c : Nat)
  | enter
  | tab
  | backspace
  | esc
  | up
  | down
  | right
  | left
  | home
  | endKey
  | pageUp
  | pageDown
  | delete
  | insert
  | fKey (n : Nat)
  | other
deriving DecidableEq

/-- A key event: code plus the two modifiers `key_to_bytes` reads. -/
structure KeyEvent where
  code : KeyCode
  ctrl : Bool
  alt : Bool
deriving DecidableEq

/-- `char::to_ascii_lowercase` on a Unicode scalar value. -/
def toAsciiLowercase (c : Nat) : Nat := if 65 ≤ c ∧ c ≤ 90 then c + 32 else c

/-- UTF-8 encoding of a Unicode scalar value: exactly what
`c.to_string().into_bytes()` produces for a single `char`. -/
def utf8Encode (c : Nat) : List Nat :=
  if c < 128 then [c]
  else if c < 2048 then [192 + c / 64, 128 + c % 64]
  else if c < 65536 then [224 + c / 4096, 128 + c / 64 % 64, 128 + c % 64]
  else [240 + c / 262144, 128 + c / 4096 % 64, 128 + c / 64 % 64, 128 + c % 64]

/-- `key_to_bytes` (lines 778–830 of `manager.rs`).  In the `Char` arm
with Control, the source lowercases the char and casts it to `u8`
(truncation modulo 256) before testing `is_ascii_lowercase`; with Alt it
emits `0x1B` followed by `c as u8`; the `F(n)` match is an if-chain. -/
def keyToBytes (key : KeyEvent) : List Nat :=
  match key.code with
  | .char c =>
    if key.ctrl then
      let code := toAsciiLowercase c % 256
      if 97 ≤ code ∧ code ≤ 122 then [code - 97 + 1] else []
    else if key.alt then [27, c % 256]
    else utf8Encode c
  | .enter => [13]
  | .tab => [9]
  | .backspace => [127]
  | .esc => [27]
  | .up => [27, 91, 65]
  | .down => [27, 91, 66]
  | .right => [27, 91, 67]
  | .left => [27, 91, 68]
  | .home => [27, 91, 72]
  | .endKey => [27, 91, 70]
  | .pageUp => [27, 91, 53, 126]
  | .pageDown => [27, 91, 54, 126]
  | .delete => [27, 91, 51, 126]
  | .insert => [27, 91, 50, 126]
  | .fKey n =>
    if n = 1 then [27, 79, 80]
    else if n = 2 then [27, 79, 81]
    else if n = 3 then [27, 79, 82]
    else if n = 4 then [27, 79, 83]
    else if n = 5 then [27, 91, 49, 53, 126]
    else if n = 6 then [27, 91, 49, 55, 126]
    else if n = 7 then [27, 91, 49, 56, 126]
    else if n = 8 then [27, 91, 49, 57, 126]
    else if n = 9 then [27, 91, 50, 48, 126]
    else if n = 10 then [27, 91, 50, 49, 126]
    else if n = 11 then [27, 91, 50, 51, 126]
    else if n = 12 then [27, 91, 50, 52, 126]
    else []
  | .other => []

/-- `PaneState` of `pane.rs`. -/
inductive PaneState where
  | running
  | exited (code : Int)
  | crashed (signal : Option Int) (error : Option String)
  | paused
deriving DecidableEq

/-- `PaneState::is_alive`: `matches!(self, Running | Paused)`. -/
def PaneState.isAlive : PaneState → Bool
  | .running => true
  | .paused => true
  | _ => false

/-- The pane events of `pty.rs` (the `Crashed` event carries a plain
`String` error, unlike the state's `Option<String>`). -/
inductive PaneEvent where
  | exited (paneId : Nat) (code : Int)
  | crashed (paneId : Nat) (signal : Option Int) (error : String)
  | titleChanged (paneId : Nat) (title : String)
  | output (paneId : Nat) (size : Nat)
deriving DecidableEq

/-- The outcome of `child.wait()` in the monitor worker: a `u32` exit
code on success, or an error message. -/
inductive WaitResult where
  | ok (exitCode : Nat)
  | err (msg : String)
deriving DecidableEq

/-- Whether the wait itself failed. -/
def WaitResult.isErr : WaitResult → Bool
  | .ok _ => false
  | .err _ => true

/-- The `exit_code() as i32` cast (`u32` reinterpreted as two's-complement). -/
def i32OfU32 (n : Nat) : Int := if n < 2 ^ 31 then (n : Int) else (n : Int) - 2 ^ 32

/-- Whether a state is the `Crashed` variant. -/
def PaneState.isCrashed : PaneState → Bool
  | .crashed _ _ => true
  | _ => false

/-- Whether an event is the `Crashed` variant. -/
def PaneEvent.isCrashed : PaneEvent → Bool
  | .crashed _ _ _ => true
  | _ => false

/-- The single publication the monitor worker performs
(`spawn_monitor_task`, lines 208–246 of `pty.rs`): the pair (value sent
to the state watch, event sent to the manager queue).  The source
branches on `status.success()`, but its success and failure arms publish
the identical `Exited` payload, mirrored here by the redundant `if`. -/
def monitorPublish (paneId : Nat) : WaitResult → PaneState × PaneEvent
  | .ok exitCode =>
    let code := i32OfU32 exitCode
    if exitCode = 0 then (.exited code, .exited paneId code)
    else (.exited code, .exited paneId code)
  | .err msg => (.crashed none (some msg), .crashed paneId none msg)

/-- The values the per-pane state watch can ever hold: it is created
holding `Running` (`watch::channel(PaneState::Running)`, line 104 of
`pty.rs`) and the monitor worker is its only writer. -/
inductive WatchReach : PaneState → Prop where
  | init : WatchReach .running
  | publish (paneId : Nat) (r : WaitResult) (prev : PaneState) :
      WatchReach prev → WatchReach (monitorPublish paneId r).1

/-- One observable mutation of the manager, as performed by the public
API.  A Rust `HashMap`'s iteration order is unspecified, so the steps
that change the registry (`spawn`, `close_pane`) take the resulting key
enumeration `newKeys` as a parameter constrained only up to permutation.
`spawnFail` is the early return of `spawn` after the id was already
minted (`fetch_add`) but `spawn_pty` failed.  `pane_at_position` /
`focus_at_position` are exercised through `handle_click`, which passes
the manager's own `cached_areas`.  `resize_pane`, `send_input`,
`route_key` and `poll_events` do not change the modelled state. -/
inductive Step : PaneManager → PaneManager → Prop where
  | spawn (m : PaneManager) (newKeys : List Nat)
      (hlen : m.panesKeys.length < m.maxPanes)
      (hkeys : newKeys.Perm (m.nextId :: m.panesKeys)) :
      Step m (m.spawnState newKeys)
  | spawnFail (m : PaneManager) (hlen : m.panesKeys.length < m.maxPanes) :
      Step m { m with nextId := m.nextId + 1 }
  | close (m : PaneManager) (paneId : Nat) (newKeys : List Nat)
      (hkeys : newKeys.Perm (m.panesKeys.erase paneId)) :
      Step m (m.closePane paneId newKeys)
  | setSize (m : PaneManager) (size : Rect) : Step m (m.setTerminalSize size)
  | togglePane (m : PaneManager) (position : Nat) : Step m (m.togglePaneExpansion position)
  | toggleH (m : PaneManager) (row : Nat) (expandLeft : Bool) :
      Step m (m.toggleHorizontalExpansion row expandLeft)
  | setFocus (m : PaneManager) (paneId : Nat) : Step m (m.setFocus paneId)
  | focusNext (m : PaneManager) : Step m m.focusNext
  | focusPrev (m : PaneManager) : Step m m.focusPrev
  | click (m : PaneManager) (x y : Nat) : Step m (m.handleClick x y).1

/-- Manager states reachable from `PaneManager::new()` by the public API. -/
inductive Reach : PaneManager → Prop where
  | init : Reach PaneManager.new
  | step (m m' : PaneManager) : Reach m → Step m m' → Reach m'

/-- The structural invariants of every reachable manager state. -/
structure ManagerInv (m : PaneManager) : Prop where
  keysPerm : m.panesKeys.Perm m.paneOrder
  orderNodup : m.paneOrder.Nodup
  idsLt : ∀ paneId ∈ m.paneOrder, paneId < m.nextId
  focusMem : ∀ f, m.focused = some f → f ∈ m.paneOrder
  focusSome : m.paneOrder ≠ [] → m.focused ≠ none
  maxLe : m.maxPanes ≤ 4
  lenLe : m.paneOrder.length ≤ m.maxPanes
  cacheFix : m.recalculateLayout = m
  cacheEmpty : m.terminalSize = none → m.cache = ⟨[], [], []⟩

/-- The behaviour the specification ascribes to `focus_next`: the
successor of the focused pane in `pane_order` (insertion order),
wrapping at the end.  Stated from the spec's words, for comparison with
the implementation (which walks the `HashMap` key enumeration instead). -/
def nextInPaneOrder (order : List Nat) (f : Nat) : Option Nat :=
  match order.findIdx? (fun paneId => paneId == f) with
  | none => none
  | some i => some (order.getD ((i + 1) % order.length) 0)

/-- The focus-cycling contract of claim C1, corrected to range over the
manager's pane-map key enumeration `panesKeys`: no-op when empty,
successor/predecessor in the enumeration with wrap-around, the
`|panes|`-fold iterate is the identity, and `focus_prev` undoes
`focus_next`. -/
def FocusCycleSpec (m : PaneManager) : Prop :=
  (m.panesKeys = [] → m.focusNext = m ∧ m.focusPrev = m) ∧
  (∀ j, j < m.panesKeys.length → m.focused = some (m.panesKeys.getD j 0) →
    m.focusNext.focused =
      some (m.panesKeys.getD ((j + 1) % m.panesKeys.length) 0) ∧
    m.focusPrev.focused =
      some (m.panesKeys.getD ((j + m.panesKeys.length - 1) % m.panesKeys.length) 0)) ∧
  (m.panesKeys ≠ [] →
    PaneManager.focusNext^[m.panesKeys.length] m = m ∧ m.focusNext.focusPrev = m)

/-- The toggle-involution contract of claim C6, corrected on the
horizontal side: double application is the identity unless the row is
currently expanded in the opposite direction. -/
def ToggleInvolutionSpec (m : PaneManager) : Prop :=
  (∀ position, (m.togglePaneExpansion position).togglePaneExpansion position = m) ∧
  (∀ row expandLeft,
    (m.horizontalExpanded.get row = none ∨ m.horizontalExpanded.get row = some expandLeft) →
    (m.toggleHorizontalExpansion row expandLeft).toggleHorizontalExpansion row expandLeft = m)

/-- The click-dispatch contract of claim C4: first match wins among
up-arrow / down-arrow / horizontal-arrow / focus, with the stated side
conditions (an up arrow only fires on an expanded slot and collapses it;
a down arrow only fires for a collapsed slot and expands it;
a horizontal arrow toggles its row; a focus click reports `true` exactly
when focus changed). -/
def ClickDispatchSpec (m : PaneManager) : Prop :=
  ∀ x y : Nat,
    (∀ pos, upArrowAtPosition x y (sortByX m.cachedAreas) m.expandedPositions = some pos →
      m.expandedPositions.get pos = true ∧
      m.handleClick x y = (m.togglePaneExpansion pos, true) ∧
      (m.handleClick x y).1.expandedPositions.get pos = false) ∧
    (upArrowAtPosition x y (sortByX m.cachedAreas) m.expandedPositions = none →
      ∀ arrow, downArrowAtPosition x y m.subPaneAreas = some arrow →
        m.expandedPositions.get arrow.panePosition = false ∧
        m.handleClick x y = (m.togglePaneExpansion arrow.panePosition, true) ∧
        (m.handleClick x y).1.expandedPositions.get arrow.panePosition = true) ∧
    (upArrowAtPosition x y (sortByX m.cachedAreas) m.expandedPositions = none →
      downArrowAtPosition x y m.subPaneAreas = none →
      ∀ arrow, horizontalArrowAtPosition x y m.subPaneAreas = some arrow →
        m.handleClick x y =
          (m.toggleHorizontalExpansion (arrow.sourcePosition / 2)
            (arrow.sourcePosition % 2 == 0), true) ∧
        arrow.sourcePosition / 2 < 2) ∧
    (upArrowAtPosition x y (sortByX m.cachedAreas) m.expandedPositions = none →
      downArrowAtPosition x y m.subPaneAreas = none →
      horizontalArrowAtPosition x y m.subPaneAreas = none →
      m.handleClick x y = m.focusAtPosition x y m.cachedAreas ∧
      (∀ paneId, paneAtPosition x y m.cachedAreas = some paneId →
        (m.handleClick x y).1.focused = some paneId ∧
        ((m.handleClick x y).2 = true ↔ m.focused ≠ some paneId)) ∧
      (paneAtPosition x y m.cachedAreas = none → m.handleClick x y = (m, false)))

/-- An 80 × 20 host terminal. -/
def rect80x20 : Rect := ⟨0, 0, 80, 20⟩

/-- An 80 × 40 host terminal. -/
def rect80x40 : Rect := ⟨0, 0, 80, 40⟩

/-- A fresh manager that has been told its terminal size. -/
def mgrBase : PaneManager := PaneManager.new.setTerminalSize rect80x20

/-- `mgrBase` after one successful spawn (key enumeration `[1]`). -/
def mgrOne : PaneManager := mgrBase.spawnState [1]

/-- `mgrOne` after a second spawn (key enumeration `[2, 1]`). -/
def mgrTwo : PaneManager := mgrOne.spawnState [2, 1]

/-- Three spawns whose final `HashMap` key enumeration `[1, 3, 2]`
disagrees with the insertion order `[1, 2, 3]` — a key-order the
unspecified-order `HashMap` is free to produce. -/
def mgrShuffled : PaneManager :=
  ((PaneManager.new.spawnState [1]).spawnState [2, 1]).spawnState [1, 3, 2]

/-- A spawn performed before any terminal size is known. -/
def mgrNoSize : PaneManager := PaneManager.new.spawnState [1]

/-- A manager with one live pane on an 80 × 40 terminal, about to spawn
its second (so the pending pane count is 2). -/
def mgrPending2 : PaneManager := (PaneManager.new.setTerminalSize rect80x40).spawnState [1]

/-- `mgrBase` with the top row horizontally expanded to the left. -/
def mgrHLeft : PaneManager := mgrBase.toggleHorizontalExpansion 0 true

theorem computeLayout_overwrite (size : Option Rect) (order : List Nat)
    (exp exp' : Expanded4) (hexp hexp' : HExp2) (old : LayoutCache) :
    computeLayout size order exp hexp (computeLayout size order exp' hexp' old) =
      computeLayout size order exp hexp old := by
  cases size <;> rfl

theorem cache_fix_eq {m : PaneManager} (h : m.recalculateLayout = m) :
    computeLayout m.terminalSize m.paneOrder m.expandedPositions m.horizontalExpanded m.cache =
      m.cache :=
  congrArg PaneManager.cache h

theorem fix_of_cache_eq {m : PaneManager}
    (h : computeLayout m.terminalSize m.paneOrder m.expandedPositions m.horizontalExpanded m.cache =
      m.cache) : m.recalculateLayout = m := by
  unfold PaneManager.recalculateLayout
  rw [h]

theorem recalc_idem (m : PaneManager) :
    m.recalculateLayout.recalculateLayout = m.recalculateLayout := by
  apply fix_of_cache_eq
  show computeLayout m.terminalSize m.paneOrder m.expandedPositions m.horizontalExpanded
      (computeLayout m.terminalSize m.paneOrder m.expandedPositions m.horizontalExpanded m.cache) =
    computeLayout m.terminalSize m.paneOrder m.expandedPositions m.horizontalExpanded m.cache
  exact computeLayout_overwrite _ _ _ _ _ _ _

theorem Expanded4.get_flip (e : Expanded4) (position : Nat) (h : position < 4) :
    (e.flip position).get position = !(e.get position) := by
  obtain ⟨a, b, c, d⟩ := e
  match position with
  | 0 => rfl
  | 1 => rfl
  | 2 => rfl
  | 3 => rfl

theorem Expanded4.flip_flip (e : Expanded4) (position : Nat) :
    (e.flip position).flip position = e := by
  obtain ⟨a, b, c, d⟩ := e
  match position with
  | 0 => simp [Expanded4.flip]
  | 1 => simp [Expanded4.flip]
  | 2 => simp [Expanded4.flip]
  | 3 => simp [Expanded4.flip]
  | n + 4 => rfl

theorem HExp2.get_set (h : HExp2) (row : Nat) (v : Option Bool) (hrow : row < 2) :
    (h.set row v).get row = v := by
  obtain ⟨h0, h1⟩ := h
  match row with
  | 0 => rfl
  | 1 => rfl

theorem HExp2.set_set (h : HExp2) (row : Nat) (v w : Option Bool) :
    (h.set row v).set row w = h.set row w := by
  obtain ⟨h0, h1⟩ := h
  match row with
  | 0 => rfl
  | 1 => rfl
  | n + 2 => rfl

theorem HExp2.set_get (h : HExp2) (row : Nat) : h.set row (h.get row) = h := by
  obtain ⟨h0, h1⟩ := h
  match row with
  | 0 => rfl
  | 1 => rfl
  | n + 2 => rfl

theorem fix_update_nonlayout {m m' : PaneManager}
    (h : m.recalculateLayout = m)
    (hsz : m'.terminalSize = m.terminalSize) (hord : m'.paneOrder = m.paneOrder)
    (hexp : m'.expandedPositions = m.expandedPositions)
    (hh : m'.horizontalExpanded = m.horizontalExpanded) (hc : m'.cache = m.cache) :
    m'.recalculateLayout = m' := by
  apply fix_of_cache_eq
  rw [hsz, hord, hexp, hh, hc]
  exact cache_fix_eq h

theorem inv_new : ManagerInv PaneManager.new := by
  refine ⟨List.Perm.refl _, ?_, ?_, ?_, ?_, ?_, ?_, rfl, fun _ => rfl⟩
  · simp [PaneManager.new, PaneManager.withConfig]
  · intro paneId hmem
    simp [PaneManager.new, PaneManager.withConfig] at hmem
  · intro f hf
    simp [PaneManager.new, PaneManager.withConfig] at hf
  · intro hne
    exact absurd rfl hne
  · decide
  · decide

theorem inv_setTerminalSize {m : PaneManager} (h : ManagerInv m) (size : Rect) :
    ManagerInv (m.setTerminalSize size) := by
  unfold PaneManager.setTerminalSize
  split
  · exact h
  · refine ⟨h.keysPerm, h.orderNodup, h.idsLt, h.focusMem, h.focusSome, h.maxLe, h.lenLe,
      recalc_idem _, ?_⟩
    intro hnone
    simp [PaneManager.recalculateLayout] at hnone

theorem inv_spawnState {m : PaneManager} (h : ManagerInv m) {newKeys : List Nat}
    (hlen : m.panesKeys.length < m.maxPanes)
    (hkeys : newKeys.Perm (m.nextId :: m.panesKeys)) :
    ManagerInv (m.spawnState newKeys) := by
  have hnotmem : m.nextId ∉ m.paneOrder := fun hmem => absurd (h.idsLt _ hmem) (by omega)
  have hperm2 : newKeys.Perm (m.paneOrder ++ [m.nextId]) :=
    hkeys.trans ((List.Perm.cons _ h.keysPerm).trans
      (List.perm_append_singleton m.nextId m.paneOrder).symm)
  refine ⟨hperm2, ?_, ?_, ?_, ?_, h.maxLe, ?_, recalc_idem _, ?_⟩
  · exact ((List.perm_append_singleton m.nextId m.paneOrder).symm).nodup
      (List.nodup_cons.mpr ⟨hnotmem, h.orderNodup⟩)
  · intro paneId hmem
    show paneId < m.nextId + 1
    rcases List.mem_append.mp hmem with hl | hr
    · have := h.idsLt paneId hl; omega
    · have : paneId = m.nextId := by simpa using hr
      omega
  · intro f hf
    have hf' : (if m.focused = none then some m.nextId else m.focused) = some f := hf
    by_cases hfoc : m.focused = none
    · rw [if_pos hfoc] at hf'
      have : m.nextId = f := Option.some.inj hf'
      subst this
      exact List.mem_append.mpr (Or.inr (by simp))
    · rw [if_neg hfoc] at hf'
      exact List.mem_append.mpr (Or.inl (h.focusMem f hf'))
  · intro _
    show (if m.focused = none then some m.nextId else m.focused) ≠ none
    split
    · simp
    · assumption
  · show (m.paneOrder ++ [m.nextId]).length ≤ m.maxPanes
    have hle := h.keysPerm.length_eq
    simp only [List.length_append, List.length_cons, List.length_nil]
    omega
  · intro hnone
    have hm : m.terminalSize = none := hnone
    show computeLayout m.terminalSize (m.paneOrder ++ [m.nextId]) m.expandedPositions
      m.horizontalExpanded m.cache = ⟨[], [], []⟩
    rw [hm]
    exact h.cacheEmpty hm

theorem inv_spawnFail {m : PaneManager} (h : ManagerInv m) :
    ManagerInv { m with nextId := m.nextId + 1 } := by
  refine ⟨h.keysPerm, h.orderNodup, ?_, h.focusMem, h.focusSome, h.maxLe, h.lenLe,
    fix_update_nonlayout h.cacheFix rfl rfl rfl rfl rfl, h.cacheEmpty⟩
  intro paneId hmem
  show paneId < m.nextId + 1
  have := h.idsLt paneId hmem
  omega

theorem inv_closePane {m : PaneManager} (h : ManagerInv m) {paneId : Nat} {newKeys : List Nat}
    (hkeys : newKeys.Perm (m.panesKeys.erase paneId)) :
    ManagerInv (m.closePane paneId newKeys) := by
  have horder : m.paneOrder.erase paneId = m.paneOrder.filter (fun q => q != paneId) :=
    List.Nodup.erase_eq_filter h.orderNodup paneId
  have hperm2 : newKeys.Perm (m.paneOrder.filter (fun q => q != paneId)) := by
    refine hkeys.trans ?_
    rw [← horder]
    exact List.Perm.erase paneId h.keysPerm
  refine ⟨hperm2, List.Nodup.filter _ h.orderNodup, ?_, ?_, ?_, h.maxLe, ?_, recalc_idem _, ?_⟩
  · intro q hmem
    exact h.idsLt q (List.mem_of_mem_filter hmem)
  · intro f hf
    have hf' : (if m.focused = some paneId
        then (m.paneOrder.filter (fun q => q != paneId)).head? else m.focused) = some f := hf
    by_cases hfoc : m.focused = some paneId
    · rw [if_pos hfoc] at hf'
      exact List.mem_of_mem_head? (Option.mem_def.mpr hf')
    · rw [if_neg hfoc] at hf'
      refine List.mem_filter.mpr ⟨h.focusMem f hf', ?_⟩
      have hne : f ≠ paneId := by
        intro hfe
        subst hfe
        exact hfoc hf'
      simpa using hne
  · intro hne
    have hne2 : m.paneOrder.filter (fun q => q != paneId) ≠ [] := hne
    have hne' : m.paneOrder ≠ [] := by
      intro h0
      apply hne2
      rw [h0]
      rfl
    show (if m.focused = some paneId
        then (m.paneOrder.filter (fun q => q != paneId)).head? else m.focused) ≠ none
    split
    · intro hh
      exact hne2 (List.head?_eq_none_iff.mp hh)
    · exact h.focusSome hne'
  · show (m.paneOrder.filter (fun q => q != paneId)).length ≤ m.maxPanes
    exact le_trans (List.length_filter_le _ _) h.lenLe
  · intro hnone
    have hm : m.terminalSize = none := hnone
    show computeLayout m.terminalSize (m.paneOrder.filter (fun q => q != paneId))
      m.expandedPositions m.horizontalExpanded m.cache = ⟨[], [], []⟩
    rw [hm]
    exact h.cacheEmpty hm

theorem inv_togglePane {m : PaneManager} (h : ManagerInv m) (position : Nat) :
    ManagerInv (m.togglePaneExpansion position) := by
  unfold PaneManager.togglePaneExpansion
  split
  · refine ⟨h.keysPerm, h.orderNodup, h.idsLt, h.focusMem, h.focusSome, h.maxLe, h.lenLe,
      recalc_idem _, ?_⟩
    intro hnone
    have hm : m.terminalSize = none := hnone
    show computeLayout m.terminalSize m.paneOrder (m.expandedPositions.flip position)
      m.horizontalExpanded m.cache = ⟨[], [], []⟩
    rw [hm]
    exact h.cacheEmpty hm
  · exact h

theorem inv_toggleH {m : PaneManager} (h : ManagerInv m) (row : Nat) (expandLeft : Bool) :
    ManagerInv (m.toggleHorizontalExpansion row expandLeft) := by
  unfold PaneManager.toggleHorizontalExpansion
  split
  · refine ⟨h.keysPerm, h.orderNodup, h.idsLt, h.focusMem, h.focusSome, h.maxLe, h.lenLe,
      recalc_idem _, ?_⟩
    intro hnone
    have hm : m.terminalSize = none := hnone
    show computeLayout m.terminalSize m.paneOrder m.expandedPositions
      (m.horizontalExpanded.set row
        (toggleHState (m.horizontalExpanded.get row) expandLeft)) m.cache = ⟨[], [], []⟩
    rw [hm]
    exact h.cacheEmpty hm
  · exact h

theorem inv_setFocus {m : PaneManager} (h : ManagerInv m) (paneId : Nat) :
    ManagerInv (m.setFocus paneId) := by
  unfold PaneManager.setFocus
  split
  · next hmem =>
    refine ⟨h.keysPerm, h.orderNodup, h.idsLt, ?_, ?_, h.maxLe, h.lenLe,
      fix_update_nonlayout h.cacheFix rfl rfl rfl rfl rfl, h.cacheEmpty⟩
    · intro f hf
      have he : paneId = f := Option.some.inj hf
      subst he
      exact h.keysPerm.mem_iff.mp hmem
    · intro _
      simp
  · exact h

theorem assignGo_fst_map (order : List Nat) :
    ∀ (areas : List Rect) (i : Nat),
      (assignGo order i areas).1.map Prod.fst = (order.drop i).take areas.length := by
  intro areas
  induction areas with
  | nil => intro i; simp [assignGo]
  | cons a rest ih =>
    intro i
    simp only [assignGo]
    cases hoi : order[i]? with
    | some paneId =>
      have hi : i < order.length := by
        by_contra hih
        rw [List.getElem?_eq_none (by omega)] at hoi
        cases hoi
      have hgi : order[i] = paneId := by
        rw [List.getElem?_eq_getElem hi] at hoi
        exact Option.some.inj hoi
      rw [List.drop_eq_getElem_cons hi]
      simp [ih (i + 1), hgi]
    | none =>
      have hi : order.length ≤ i := by
        by_contra hih
        rw [List.getElem?_eq_getElem (by omega)] at hoi
        cases hoi
      have hd1 : order.drop i = [] := List.drop_eq_nil_of_le hi
      have hd2 : order.drop (i + 1) = [] := List.drop_eq_nil_of_le (by omega)
      simp [ih (i + 1), hd1, hd2]

theorem cached_map_fst {m : PaneManager} (h : ManagerInv m) {a : Rect}
    (hsz : m.terminalSize = some a) :
    m.cachedAreas.map Prod.fst = m.paneOrder := by
  have hc := cache_fix_eq h.cacheFix
  rw [hsz] at hc
  have hcached := congrArg LayoutCache.cachedAreas hc
  show m.cache.cachedAreas.map Prod.fst = m.paneOrder
  rw [← hcached]
  show (assignGo m.paneOrder 0 (primarySlotAreas a m.expandedPositions m.horizontalExpanded)).1.map
    Prod.fst = m.paneOrder
  rw [assignGo_fst_map]
  show (m.paneOrder.drop 0).take 4 = m.paneOrder
  rw [List.drop_zero]
  exact List.take_of_length_le (le_trans h.lenLe h.maxLe)

theorem subPaneAreas_eq {m : PaneManager} (h : ManagerInv m) {a : Rect}
    (hsz : m.terminalSize = some a) :
    m.subPaneAreas =
      (List.range 8).map (subPaneRect (subPanesArea a) m.expandedPositions m.horizontalExpanded) := by
  have hc := cache_fix_eq h.cacheFix
  rw [hsz] at hc
  have hsub := congrArg LayoutCache.subPaneAreas hc
  show m.cache.subPaneAreas = _
  rw [← hsub]
  rfl

theorem mem_cached_mem_order {m : PaneManager} (h : ManagerInv m) {paneId : Nat} {r : Rect}
    (hmem : (paneId, r) ∈ m.cachedAreas) : paneId ∈ m.paneOrder := by
  cases hsz : m.terminalSize with
  | none =>
    have hce := h.cacheEmpty hsz
    have : m.cachedAreas = [] := congrArg LayoutCache.cachedAreas hce
    rw [this] at hmem
    cases hmem
  | some a =>
    have hfst := cached_map_fst h hsz
    have : paneId ∈ m.cachedAreas.map Prod.fst := by
      exact List.mem_map.mpr ⟨(paneId, r), hmem, rfl⟩
    rwa [hfst] at this

theorem paneAtPosition_mem {x y : Nat} :
    ∀ {l : List (Nat × Rect)} {paneId : Nat},
      paneAtPosition x y l = some paneId → ∃ r, (paneId, r) ∈ l := by
  intro l
  induction l with
  | nil => intro paneId h; cases h
  | cons p rest ih =>
    obtain ⟨q, r⟩ := p
    intro paneId h
    simp only [paneAtPosition] at h
    split at h
    · have : q = paneId := Option.some.inj h
      subst this
      exact ⟨r, List.mem_cons_self _ _⟩
    · obtain ⟨r', hm⟩ := ih h
      exact ⟨r', List.mem_cons_of_mem _ hm⟩

theorem focusNextIds_mem {ids : List Nat} {focused : Option Nat} {f : Nat}
    (h : focusNextIds ids focused = some f) : f ∈ ids ∨ focused = some f := by
  cases hids : ids with
  | nil =>
    subst hids
    exact Or.inr h
  | cons i0 rest =>
    subst hids
    simp only [focusNextIds, List.head?] at h
    have hf := Option.some.inj h
    left
    rw [← hf]
    have hlt : ((((i0 :: rest).findIdx? fun id => id == (focused.getD i0)).getD 0 + 1) %
        (i0 :: rest).length) < (i0 :: rest).length :=
      Nat.mod_lt _ (by simp)
    rw [List.getD_eq_getElem _ _ hlt]
    exact List.getElem_mem _

theorem focusPrevIds_mem {ids : List Nat} {focused : Option Nat} {f : Nat}
    (h : focusPrevIds ids focused = some f) : f ∈ ids ∨ focused = some f := by
  cases hids : ids with
  | nil =>
    subst hids
    exact Or.inr h
  | cons i0 rest =>
    subst hids
    simp only [focusPrevIds, List.head?] at h
    have hf := Option.some.inj h
    left
    rw [← hf]
    have hposlt : (((i0 :: rest).findIdx? fun id => id == (focused.getD i0)).getD 0) <
        (i0 :: rest).length := by
      cases hfi : (i0 :: rest).findIdx? fun id => id == (focused.getD i0) with
      | none => simp
      | some i =>
        have := (List.findIdx?_eq_some_iff_findIdx_eq.mp hfi).1
        simpa using this
    have hlt : (if (((i0 :: rest).findIdx? fun id => id == (focused.getD i0)).getD 0) = 0
        then (i0 :: rest).length - 1
        else (((i0 :: rest).findIdx? fun id => id == (focused.getD i0)).getD 0) - 1) <
        (i0 :: rest).length := by
      have hlen : (i0 :: rest).length = rest.length + 1 := List.length_cons _ _
      split
      · omega
      · omega
    rw [List.getD_eq_getElem _ _ hlt]
    exact List.getElem_mem _

theorem keys_ne_nil_of_order {m : PaneManager} (h : ManagerInv m)
    (hne : m.paneOrder ≠ []) : m.panesKeys ≠ [] := by
  intro h0
  apply hne
  have hp := h.keysPerm
  rw [h0] at hp
  exact (List.perm_nil.mp hp.symm)

theorem inv_focusNext {m : PaneManager} (h : ManagerInv m) : ManagerInv m.focusNext := by
  refine ⟨h.keysPerm, h.orderNodup, h.idsLt, ?_, ?_, h.maxLe, h.lenLe,
    fix_update_nonlayout h.cacheFix rfl rfl rfl rfl rfl, h.cacheEmpty⟩
  · intro f hf
    have hf' : focusNextIds m.panesKeys m.focused = some f := hf
    rcases focusNextIds_mem hf' with hmem | hfo
    · exact h.keysPerm.mem_iff.mp hmem
    · exact h.focusMem f hfo
  · intro hne
    have hne2 : m.paneOrder ≠ [] := hne
    have hkne : m.panesKeys ≠ [] := keys_ne_nil_of_order h hne2
    show focusNextIds m.panesKeys m.focused ≠ none
    cases hk : m.panesKeys with
    | nil => exact absurd hk hkne
    | cons i0 rest => simp [focusNextIds]

theorem inv_focusPrev {m : PaneManager} (h : ManagerInv m) : ManagerInv m.focusPrev := by
  refine ⟨h.keysPerm, h.orderNodup, h.idsLt, ?_, ?_, h.maxLe, h.lenLe,
    fix_update_nonlayout h.cacheFix rfl rfl rfl rfl rfl, h.cacheEmpty⟩
  · intro f hf
    have hf' : focusPrevIds m.panesKeys m.focused = some f := hf
    rcases focusPrevIds_mem hf' with hmem | hfo
    · exact h.keysPerm.mem_iff.mp hmem
    · exact h.focusMem f hfo
  · intro hne
    have hne2 : m.paneOrder ≠ [] := hne
    have hkne : m.panesKeys ≠ [] := keys_ne_nil_of_order h hne2
    show focusPrevIds m.panesKeys m.focused ≠ none
    cases hk : m.panesKeys with
    | nil => exact absurd hk hkne
    | cons i0 rest => simp [focusPrevIds]

theorem inv_focusAt {m : PaneManager} (h : ManagerInv m) (x y : Nat) :
    ManagerInv (m.focusAtPosition x y m.cachedAreas).1 := by
  unfold PaneManager.focusAtPosition
  cases hpa : paneAtPosition x y m.cachedAreas with
  | none => exact h
  | some paneId =>
    show ManagerInv (if m.focused ≠ some paneId
      then ({ m with focused := some paneId }, true) else (m, false)).1
    by_cases hfoc : m.focused ≠ some paneId
    · rw [if_pos hfoc]
      refine ⟨h.keysPerm, h.orderNodup, h.idsLt, ?_, ?_, h.maxLe, h.lenLe,
        fix_update_nonlayout h.cacheFix rfl rfl rfl rfl rfl, h.cacheEmpty⟩
      · intro f hf
        have he : paneId = f := Option.some.inj hf
        subst he
        obtain ⟨r, hr⟩ := paneAtPosition_mem hpa
        exact mem_cached_mem_order h hr
      · intro _
        simp
    · rw [if_neg hfoc]
      exact h

theorem handleClick_eq (m : PaneManager) (x y : Nat) :
    m.handleClick x y =
      match upArrowAtPosition x y (sortByX m.cachedAreas) m.expandedPositions with
      | some position => (m.togglePaneExpansion position, true)
      | none =>
        match downArrowAtPosition x y m.subPaneAreas with
        | some arrow => (m.togglePaneExpansion arrow.panePosition, true)
        | none =>
          match horizontalArrowAtPosition x y m.subPaneAreas with
          | some arrow =>
            (m.toggleHorizontalExpansion (arrow.sourcePosition / 2)
              (arrow.sourcePosition % 2 == 0), true)
          | none => m.focusAtPosition x y m.cachedAreas := rfl

theorem inv_handleClick {m : PaneManager} (h : ManagerInv m) (x y : Nat) :
    ManagerInv (m.handleClick x y).1 := by
  rw [handleClick_eq]
  cases upArrowAtPosition x y (sortByX m.cachedAreas) m.expandedPositions with
  | some pos => exact inv_togglePane h pos
  | none =>
    cases downArrowAtPosition x y m.subPaneAreas with
    | some arrow => exact inv_togglePane h _
    | none =>
      cases horizontalArrowAtPosition x y m.subPaneAreas with
      | some arrow => exact inv_toggleH h _ _
      | none => exact inv_focusAt h x y

theorem reach_inv {m : PaneManager} (h : Reach m) : ManagerInv m := by
  induction h with
  | init => exact inv_new
  | step m m' hr hs ih =>
    cases hs with
    | spawn newKeys hlen hkeys => exact inv_spawnState ih hlen hkeys
    | spawnFail hlen => exact inv_spawnFail ih
    | close paneId newKeys hkeys => exact inv_closePane ih hkeys
    | setSize size => exact inv_setTerminalSize ih size
    | togglePane position => exact inv_togglePane ih position
    | toggleH row expandLeft => exact inv_toggleH ih row expandLeft
    | setFocus paneId => exact inv_setFocus ih paneId
    | focusNext => exact inv_focusNext ih
    | focusPrev => exact inv_focusPrev ih
    | click x y => exact inv_handleClick ih x y

theorem findIdx_nodup {ids : List Nat} (hnodup : ids.Nodup) :
    ∀ (j : Nat) (hj : j < ids.length) (i : Nat),
      ids.findIdx? (fun q => q == ids[j]) i = some (i + j) := by
  induction ids with
  | nil => intro j hj; simp at hj
  | cons a rest ih =>
    intro j hj i
    rw [List.findIdx?_cons]
    cases j with
    | zero => simp
    | succ k =>
      have hk : k < rest.length := by simpa using hj
      have ha : a ∉ rest := (List.nodup_cons.mp hnodup).1
      have hr : rest.Nodup := (List.nodup_cons.mp hnodup).2
      have hget : (a :: rest)[k + 1] = rest[k] := rfl
      have hne : (a == (a :: rest)[k + 1]) = false := by
        rw [hget]
        rw [beq_eq_false_iff_ne]
        intro he
        exact ha (he ▸ List.getElem_mem hk)
      rw [hne]
      simp only [Bool.false_eq_true, if_false]
      rw [show (fun q => q == (a :: rest)[k + 1]) = (fun q => q == rest[k]) from by rw [hget]]
      rw [ih hr k hk (i + 1)]
      congr 1
      omega

theorem posOf_getD {ids : List Nat} (hnodup : ids.Nodup) (j : Nat) (hj : j < ids.length) :
    ((ids.findIdx? fun q => q == ids[j]).getD 0) = j := by
  rw [findIdx_nodup hnodup j hj 0]
  simp

theorem focusNextIds_getD {ids : List Nat} (hnodup : ids.Nodup) (j : Nat)
    (hj : j < ids.length) :
    focusNextIds ids (some (ids.getD j 0)) = some (ids.getD ((j + 1) % ids.length) 0) := by
  cases ids with
  | nil => simp at hj
  | cons i0 rest =>
    simp only [focusNextIds, List.head?, Option.getD_some]
    rw [List.getD_eq_getElem _ _ hj, posOf_getD hnodup j hj]

theorem focusPrevIds_getD {ids : List Nat} (hnodup : ids.Nodup) (j : Nat)
    (hj : j < ids.length) :
    focusPrevIds ids (some (ids.getD j 0)) =
      some (ids.getD (if j = 0 then ids.length - 1 else j - 1) 0) := by
  cases ids with
  | nil => simp at hj
  | cons i0 rest =>
    simp only [focusPrevIds, List.head?, Option.getD_some]
    rw [List.getD_eq_getElem _ _ hj, posOf_getD hnodup j hj]

theorem focusNext_iterate {m : PaneManager} (hnodup : m.panesKeys.Nodup) (j : Nat)
    (hj : j < m.panesKeys.length) (hfoc : m.focused = some (m.panesKeys.getD j 0)) :
    ∀ k, PaneManager.focusNext^[k] m =
      { m with focused := some (m.panesKeys.getD ((j + k) % m.panesKeys.length) 0) } := by
  intro k
  induction k with
  | zero =>
    simp only [Function.iterate_zero, id_eq]
    rw [Nat.add_zero, Nat.mod_eq_of_lt hj, ← hfoc]
  | succ k ih =>
    have hn : 0 < m.panesKeys.length := lt_of_le_of_lt (Nat.zero_le j) hj
    have hjk : (j + k) % m.panesKeys.length < m.panesKeys.length := Nat.mod_lt _ hn
    rw [Function.iterate_succ_apply', ih]
    show ({ m with
              focused := focusNextIds m.panesKeys
                (some (m.panesKeys.getD ((j + k) % m.panesKeys.length) 0)) } : PaneManager) = _
    rw [focusNextIds_getD hnodup _ hjk]
    rw [Nat.mod_add_mod]
    rfl

theorem focusPrev_of_focusNext {m : PaneManager} (hnodup : m.panesKeys.Nodup) (j : Nat)
    (hj : j < m.panesKeys.length) (hfoc : m.focused = some (m.panesKeys.getD j 0)) :
    m.focusNext.focusPrev = m := by
  have hn : 0 < m.panesKeys.length := lt_of_le_of_lt (Nat.zero_le j) hj
  have h1 : m.focusNext =
      { m with focused := some (m.panesKeys.getD ((j + 1) % m.panesKeys.length) 0) } := by
    have := focusNext_iterate hnodup j hj hfoc 1
    simpa using this
  rw [h1]
  have hp : (j + 1) % m.panesKeys.length < m.panesKeys.length := Nat.mod_lt _ hn
  show ({ m with
            focused := focusPrevIds m.panesKeys
              (some (m.panesKeys.getD ((j + 1) % m.panesKeys.length) 0)) } : PaneManager) = m
  rw [focusPrevIds_getD hnodup _ hp]
  have hidx : (if (j + 1) % m.panesKeys.length = 0 then m.panesKeys.length - 1
      else (j + 1) % m.panesKeys.length - 1) = j := by
    rcases Nat.lt_or_ge (j + 1) m.panesKeys.length with hlt | hge
    · rw [Nat.mod_eq_of_lt hlt]
      simp
    · have hn1 : m.panesKeys.length = j + 1 := by omega
      rw [hn1, Nat.mod_self]
      simp
  rw [hidx, ← hfoc]

theorem reach_mgrBase : Reach mgrBase :=
  Reach.step _ _ Reach.init (Step.setSize _ _)

theorem reach_mgrOne : Reach mgrOne :=
  Reach.step _ _ reach_mgrBase (Step.spawn _ _ (by decide) (by decide))

theorem reach_mgrTwo : Reach mgrTwo :=
  Reach.step _ _ reach_mgrOne (Step.spawn _ _ (by decide) (by decide))

theorem reach_mgrNoSize : Reach mgrNoSize :=
  Reach.step _ _ Reach.init (Step.spawn _ _ (by decide) (by decide))

theorem reach_mgrShuffled : Reach mgrShuffled :=
  Reach.step _ _
    (Reach.step _ _
      (Reach.step _ _ Reach.init (Step.spawn _ _ (by decide) (by decide)))
      (Step.spawn _ _ (by decide) (by decide)))
    (Step.spawn _ _ (by decide) (by decide))

theorem reach_mgrHLeft : Reach mgrHLeft :=
  Reach.step _ _ reach_mgrBase (Step.toggleH _ 0 true)

/-- Claim C1 (amended): `focus_next` / `focus_prev` cycle through the
manager's pane-map key enumeration (`panes.keys()`, an unspecified
permutation of `pane_order`), not through `pane_order` itself.  For every
reachable manager: both are no-ops on an empty registry; on a non-empty
registry they move to the successor / predecessor position of the key
enumeration with wrap-around at both ends, `focus_next` applied `|panes|`
times is the identity, and `focus_prev ∘ focus_next` is the identity. -/
theorem claim_c1_focus_cycling (m : PaneManager) (h : Reach m) : FocusCycleSpec m := by
  have hInv := reach_inv h
  have hnodup : m.panesKeys.Nodup := hInv.keysPerm.symm.nodup hInv.orderNodup
  refine ⟨?_, ?_, ?_⟩
  · intro hk
    constructor
    · show ({ m with focused := focusNextIds m.panesKeys m.focused } : PaneManager) = m
      have he : focusNextIds m.panesKeys m.focused = m.focused := by rw [hk]; exact rfl
      rw [he]
    · show ({ m with focused := focusPrevIds m.panesKeys m.focused } : PaneManager) = m
      have he : focusPrevIds m.panesKeys m.focused = m.focused := by rw [hk]; exact rfl
      rw [he]
  · intro j hj hfoc
    have hn : 0 < m.panesKeys.length := lt_of_le_of_lt (Nat.zero_le j) hj
    constructor
    · have h1 : m.focusNext =
          { m with focused := some (m.panesKeys.getD ((j + 1) % m.panesKeys.length) 0) } := by
        have := focusNext_iterate hnodup j hj hfoc 1
        simpa using this
      rw [h1]
    · show focusPrevIds m.panesKeys m.focused =
        some (m.panesKeys.getD ((j + m.panesKeys.length - 1) % m.panesKeys.length) 0)
      rw [hfoc, focusPrevIds_getD hnodup j hj]
      have hidx : (if j = 0 then m.panesKeys.length - 1 else j - 1) =
          (j + m.panesKeys.length - 1) % m.panesKeys.length := by
        rcases Nat.eq_zero_or_pos j with h0 | hpos
        · subst h0
          rw [if_pos rfl]
          have he : 0 + m.panesKeys.length - 1 = m.panesKeys.length - 1 := by omega
          rw [he, Nat.mod_eq_of_lt (by omega)]
        · rw [if_neg (by omega)]
          have he : j + m.panesKeys.length - 1 = (j - 1) + m.panesKeys.length := by omega
          rw [he, Nat.add_mod_right, Nat.mod_eq_of_lt (by omega)]
      rw [hidx]
  · intro hk
    have hord : m.paneOrder ≠ [] := by
      intro h0
      apply hk
      have hp := hInv.keysPerm
      rw [h0] at hp
      exact List.perm_nil.mp hp
    have hfne := hInv.focusSome hord
    obtain ⟨f, hf⟩ : ∃ f, m.focused = some f := by
      cases hfo : m.focused with
      | none => exact absurd hfo hfne
      | some f => exact ⟨f, rfl⟩
    have hfk : f ∈ m.panesKeys := hInv.keysPerm.mem_iff.mpr (hInv.focusMem f hf)
    obtain ⟨j, hj, hget⟩ := List.getElem_of_mem hfk
    have hfoc : m.focused = some (m.panesKeys.getD j 0) := by
      rw [List.getD_eq_getElem _ _ hj, hget]
      exact hf
    constructor
    · rw [focusNext_iterate hnodup j hj hfoc m.panesKeys.length]
      have hidx : (j + m.panesKeys.length) % m.panesKeys.length = j := by
        rw [Nat.add_mod_right]
        exact Nat.mod_eq_of_lt hj
      rw [hidx, ← hfoc]
    · exact focusPrev_of_focusNext hnodup j hj hfoc

/-- Claim C1 witness: a reachable two-pane manager satisfying the
(amended) focus-cycling contract. -/
theorem claim_c1_witness : Reach mgrTwo ∧ FocusCycleSpec mgrTwo :=
  ⟨reach_mgrTwo, claim_c1_focus_cycling mgrTwo reach_mgrTwo⟩

/-- Claim C1 counterexample: after three spawns whose `HashMap` key
enumeration is `[1, 3, 2]` (one of the orders the unspecified-order map
may produce), `pane_order` is `[1, 2, 3]` and pane 1 is focused, yet
`focus_next` focuses pane 3 — not pane 2, the successor in `pane_order`
that the claim demands. -/
theorem claim_c1_counterexample :
    Reach mgrShuffled ∧
    mgrShuffled.paneOrder = [1, 2, 3] ∧
    mgrShuffled.focused = some 1 ∧
    mgrShuffled.focusNext.focused = some 3 ∧
    nextInPaneOrder mgrShuffled.paneOrder 1 = some 2 :=
  ⟨reach_mgrShuffled, by decide, by decide, by decide, by decide⟩

theorem reach_mgrPending2 : Reach mgrPending2 :=
  Reach.step _ _ (Reach.step _ _ Reach.init (Step.setSize _ _))
    (Step.spawn _ _ (by decide) (by decide))

/-- Claim C2 (amended): in every reachable manager state whose terminal
size has been set, the keys of `cached_areas` are exactly the ids of
`pane_order` (in the same order, hence as sets), and since `pane_order`
has no duplicates every pane id owns exactly one rectangle.  Without a
terminal size `recalculate_layout` is a no-op, so the claim fails for
states that spawned before any `set_terminal_size`. -/
theorem claim_c2_cached_keys (m : PaneManager) (h : Reach m) (a : Rect)
    (hsz : m.terminalSize = some a) :
    m.cachedAreas.map Prod.fst = m.paneOrder ∧ m.paneOrder.Nodup := by
  have hInv := reach_inv h
  exact ⟨cached_map_fst hInv hsz, hInv.orderNodup⟩

/-- Claim C2 witness: a reachable one-pane manager with a terminal size. -/
theorem claim_c2_witness :
    Reach mgrOne ∧ mgrOne.terminalSize = some rect80x20 ∧
    (mgrOne.cachedAreas.map Prod.fst = mgrOne.paneOrder ∧ mgrOne.paneOrder.Nodup) :=
  ⟨reach_mgrOne, by decide, claim_c2_cached_keys mgrOne reach_mgrOne rect80x20 (by decide)⟩

/-- Claim C2 counterexample: spawning before any `set_terminal_size` is a
reachable state in which `pane_order = [1]` but `cached_areas` is empty,
so the key set of `cached_areas` differs from `pane_order`. -/
theorem claim_c2_counterexample :
    Reach mgrNoSize ∧ mgrNoSize.paneOrder = [1] ∧ mgrNoSize.cachedAreas = [] ∧
    mgrNoSize.cachedAreas.map Prod.fst ≠ mgrNoSize.paneOrder :=
  ⟨reach_mgrNoSize, by decide, by decide, by decide⟩

/-- Claim C3 (amended): `calculate_initial_pane_size` reduces the height
by the 0.7 sub-pane ratio and subtracts 2 from it, and divides the width
by 1, 2 or 4 according to the pending pane count — but it subtracts 2
from the width only in the single-pane case; in the divided cases it
subtracts just 1. -/
theorem claim_c3_initial_size (m : PaneManager) (a : Rect) (hsz : m.terminalSize = some a)
    (hw : 4 ≤ a.width) (hw2 : a.width < 65536) :
    m.calculateInitialPaneSize =
      ⟨panesHeight a.height - 2,
        if m.panesKeys.length + 1 = 1 then a.width - 2
        else if m.panesKeys.length + 1 = 2 then a.width / 2 - 1
        else a.width / 4 - 1⟩ := by
  have h2eq : wrapSub16 (a.width / 2) 1 = a.width / 2 - 1 := by
    unfold wrapSub16
    omega
  have h4eq : wrapSub16 (a.width / 4) 1 = a.width / 4 - 1 := by
    unfold wrapSub16
    omega
  unfold PaneManager.calculateInitialPaneSize
  rw [hsz]
  by_cases h1 : m.panesKeys.length + 1 = 1
  · simp [h1]
  · by_cases h2 : m.panesKeys.length + 1 = 2
    · simp [h1, h2, h2eq]
    · simp [h1, h2, h4eq]

/-- Claim C3 witness: on an 80 × 20 terminal with no live panes, the
initial size is (panes height 14 minus 2 rows, width 80 minus 2 cols). -/
theorem claim_c3_witness :
    mgrBase.terminalSize = some rect80x20 ∧ 4 ≤ rect80x20.width ∧ rect80x20.width < 65536 ∧
    mgrBase.calculateInitialPaneSize = ⟨12, 78⟩ := by
  refine ⟨by decide, by decide, by decide, ?_⟩
  have h := claim_c3_initial_size mgrBase rect80x20 (by decide) (by decide) (by decide)
  rw [h]
  decide

/-- Claim C3 counterexample: with one live pane on an 80-wide terminal
the computed width is `80 / 2 - 1 = 39`, not the `80 / 2 - 2 = 38` the
claim's "subtract 2 from each dimension" demands. -/
theorem claim_c3_counterexample :
    Reach mgrPending2 ∧
    mgrPending2.calculateInitialPaneSize = ⟨26, 39⟩ ∧ (39 : Nat) ≠ 80 / 2 - 2 :=
  ⟨reach_mgrPending2, by decide, by decide⟩

/-- Claim C5 (amended): Control with an ASCII letter yields the single
byte `lowercase − 'a' + 1`; Alt (without Control) with a printable ASCII
character yields `0x1B` then the character; a plain character yields its
UTF-8 bytes; and a Control combination yields the empty sequence exactly
when the lowercased code point truncated to a byte is not a lowercase
letter — so some Control combinations with non-ASCII characters are not
dropped. -/
theorem claim_c5_input_encoder :
    (∀ c alt, (65 ≤ c ∧ c ≤ 90) ∨ (97 ≤ c ∧ c ≤ 122) →
      keyToBytes ⟨.char c, true, alt⟩ = [toAsciiLowercase c - 97 + 1]) ∧
    (∀ c, 32 ≤ c → c < 127 → keyToBytes ⟨.char c, false, true⟩ = [27, c]) ∧
    (∀ c, keyToBytes ⟨.char c, false, false⟩ = utf8Encode c) ∧
    (∀ c alt, ¬(97 ≤ toAsciiLowercase c % 256 ∧ toAsciiLowercase c % 256 ≤ 122) →
      keyToBytes ⟨.char c, true, alt⟩ = []) := by
  refine ⟨?_, ?_, fun c => rfl, ?_⟩
  · intro c alt hc
    have hlow : 97 ≤ toAsciiLowercase c ∧ toAsciiLowercase c ≤ 122 := by
      unfold toAsciiLowercase
      split <;> omega
    have hmod : toAsciiLowercase c % 256 = toAsciiLowercase c :=
      Nat.mod_eq_of_lt (by omega)
    show (if 97 ≤ toAsciiLowercase c % 256 ∧ toAsciiLowercase c % 256 ≤ 122
      then [toAsciiLowercase c % 256 - 97 + 1] else []) = [toAsciiLowercase c - 97 + 1]
    rw [hmod, if_pos hlow]
  · intro c h32 h127
    show [27, c % 256] = [27, c]
    rw [Nat.mod_eq_of_lt (by omega)]
  · intro c alt hc
    show (if 97 ≤ toAsciiLowercase c % 256 ∧ toAsciiLowercase c % 256 ≤ 122
      then [toAsciiLowercase c % 256 - 97 + 1] else []) = []
    rw [if_neg hc]

/-- Claim C5 witness: Ctrl+G is byte 7, Alt+a is `1B 61`, a plain `€`
is its UTF-8 bytes, and Ctrl+1 is dropped. -/
theorem claim_c5_witness :
    keyToBytes ⟨.char 71, true, false⟩ = [toAsciiLowercase 71 - 97 + 1] ∧
    keyToBytes ⟨.char 97, false, true⟩ = [27, 97] ∧
    keyToBytes ⟨.char 8364, false, false⟩ = utf8Encode 8364 ∧
    keyToBytes ⟨.char 49, true, false⟩ = [] :=
  ⟨claim_c5_input_encoder.1 71 false (Or.inl (by decide)),
   claim_c5_input_encoder.2.1 97 (by decide) (by decide),
   claim_c5_input_encoder.2.2.1 8364,
   claim_c5_input_encoder.2.2.2 49 false (by decide)⟩

/-- Claim C5 counterexample: Ctrl + 'š' (U+0161) is not an ASCII letter,
so the claim files it under "unmapped ↦ empty"; but the code lowercases,
truncates 0x161 to the byte 0x61 = 'a', and emits byte 1. -/
theorem claim_c5_counterexample :
    keyToBytes ⟨.char 353, true, false⟩ = [1] ∧
    ¬((65 ≤ 353 ∧ 353 ≤ 90) ∨ (97 ≤ 353 ∧ 353 ≤ 122)) ∧
    ([1] : List Nat) ≠ [] := by
  refine ⟨?_, by decide, by decide⟩
  decide

/-- Claim C7: with no horizontal expansion, primary slots 0, 1 and 2 each
get width `w / 4`, slot 3 gets `w / 4 + w % 4` (absorbing the rounding
remainder, so slots 2 and 3 together split what remains after slots 0 and
1), and the four widths of the primary row sum to exactly `w`. -/
theorem claim_c7_primary_widths (a : Rect) (exp : Expanded4) :
    (primarySlotAreas a exp ⟨none, none⟩).map Rect.width =
      [a.width / 4, a.width / 4, a.width / 4, a.width / 4 + a.width % 4] ∧
    ((primarySlotAreas a exp ⟨none, none⟩).map Rect.width).sum = a.width ∧
    a.width / 4 + (a.width / 4 + a.width % 4) = a.width - (a.width / 4 + a.width / 4) := by
  have h4 : a.width - a.width / 4 * 3 = a.width / 4 + a.width % 4 := by omega
  refine ⟨?_, ?_, by omega⟩
  · simp [primarySlotAreas, primaryWidths, h4]
  · simp [primarySlotAreas, primaryWidths, h4]
    omega

/-- Claim C8: the monitor worker publishes `Exited{code}` to both the
state watch and the event queue whenever `wait` succeeds — the success
and nonzero-exit branches of the source are identical — and publishes
`Crashed{signal: None, error: msg}` exactly when `wait` itself fails, so
a wait failure is the only path to `Crashed`. -/
theorem claim_c8_monitor (paneId exitCode : Nat) (msg : String) (r : WaitResult) :
    monitorPublish paneId (.ok exitCode) =
      (.exited (i32OfU32 exitCode), .exited paneId (i32OfU32 exitCode)) ∧
    monitorPublish paneId (.err msg) =
      (.crashed none (some msg), .crashed paneId none msg) ∧
    (monitorPublish paneId r).1.isCrashed = r.isErr ∧
    (monitorPublish paneId r).2.isCrashed = r.isErr := by
  refine ⟨?_, rfl, ?_, ?_⟩
  · simp [monitorPublish]
  · cases r <;> simp [monitorPublish, PaneState.isCrashed, WaitResult.isErr]
  · cases r <;> simp [monitorPublish, PaneEvent.isCrashed, WaitResult.isErr]

/-- Claim C9: `spawn` overwrites the caller's requested size with the
manager-calculated initial size before handing the configuration to
`spawn_pty`, so two configurations differing only in their requested
size produce the identical spawn outcome — the same effective PTY /
emulator configuration and the same manager state. -/
theorem claim_c9_spawn_ignores_size (m : PaneManager) (config : SpawnConfig)
    (requested : PaneSize) (newKeys : List Nat) :
    m.spawn { config with size := requested } newKeys = m.spawn config newKeys ∧
    m.effectiveSpawnConfig { config with size := requested } = m.effectiveSpawnConfig config :=
  ⟨rfl, rfl⟩

/-- Claim C10: the per-pane state watch starts at `Running` and its only
writer is the monitor, which publishes only `Exited` or `Crashed`; hence
`Paused` is unreachable and `is_alive` (defined as Running-or-Paused)
holds exactly in the `Running` state. -/
theorem claim_c10_paused_unreachable (s : PaneState) (h : WatchReach s) :
    s ≠ PaneState.paused ∧ (s.isAlive = true ↔ s = PaneState.running) := by
  induction h with
  | init => exact ⟨by decide, by decide⟩
  | publish paneId r prev hprev ih =>
    cases r with
    | ok exitCode =>
      constructor <;> simp [monitorPublish, PaneState.isAlive]
    | err msg =>
      constructor <;> simp [monitorPublish, PaneState.isAlive]

/-- Claim C10 witness: the initial watch value `Running` satisfies the
contract. -/
theorem claim_c10_witness :
    WatchReach PaneState.running ∧
    (PaneState.running ≠ PaneState.paused ∧
      (PaneState.running.isAlive = true ↔ PaneState.running = PaneState.running)) :=
  ⟨WatchReach.init, claim_c10_paused_unreachable _ WatchReach.init⟩

theorem toggleHState_involutive {cur : Option Bool} {d : Bool}
    (h : cur = none ∨ cur = some d) : toggleHState (toggleHState cur d) d = cur := by
  rcases h with h | h <;> subst h <;> simp [toggleHState]

theorem recalc_then_restore_exp {m : PaneManager} (hfix : m.recalculateLayout = m)
    (e : Expanded4) :
    ({ ({ m with expandedPositions := e }).recalculateLayout with
        expandedPositions := m.expandedPositions }).recalculateLayout = m := by
  show ({ m with
            expandedPositions := m.expandedPositions,
            cache := computeLayout m.terminalSize m.paneOrder m.expandedPositions
              m.horizontalExpanded (computeLayout m.terminalSize m.paneOrder e
                m.horizontalExpanded m.cache) } : PaneManager) = m
  rw [computeLayout_overwrite, cache_fix_eq hfix]

theorem recalc_then_restore_hexp {m : PaneManager} (hfix : m.recalculateLayout = m)
    (hx : HExp2) :
    ({ ({ m with horizontalExpanded := hx }).recalculateLayout with
        horizontalExpanded := m.horizontalExpanded }).recalculateLayout = m := by
  show ({ m with
            horizontalExpanded := m.horizontalExpanded,
            cache := computeLayout m.terminalSize m.paneOrder m.expandedPositions
              m.horizontalExpanded (computeLayout m.terminalSize m.paneOrder
                m.expandedPositions hx m.cache) } : PaneManager) = m
  rw [computeLayout_overwrite, cache_fix_eq hfix]

/-- Claim C6 (amended): double application of `toggle_pane_expansion(i)`
restores the manager (cached areas, sub-pane areas, empty slots and all
expansion flags) exactly, on every reachable state.  Double application
of `toggle_horizontal_expansion(row, dir)` does so whenever the row is
currently unexpanded or expanded in the same direction; when the row is
expanded in the opposite direction, the pair of calls switches direction
and then toggles off, landing on `None` instead of the original state. -/
theorem claim_c6_toggle_involution (m : PaneManager) (h : Reach m) : ToggleInvolutionSpec m := by
  have hInv := reach_inv h
  constructor
  · intro position
    by_cases hp : position < 4
    · unfold PaneManager.togglePaneExpansion
      rw [if_pos hp, if_pos hp]
      show ({ ({ m with expandedPositions := m.expandedPositions.flip position
              }).recalculateLayout with
              expandedPositions :=
                (m.expandedPositions.flip position).flip position }).recalculateLayout = m
      rw [Expanded4.flip_flip]
      exact recalc_then_restore_exp hInv.cacheFix _
    · unfold PaneManager.togglePaneExpansion
      rw [if_neg hp, if_neg hp]
  · intro row expandLeft hcur
    by_cases hr : row < 2
    · unfold PaneManager.toggleHorizontalExpansion
      rw [if_pos hr, if_pos hr]
      show ({ ({ m with horizontalExpanded := m.horizontalExpanded.set row (toggleHState (m.horizontalExpanded.get row) expandLeft) }).recalculateLayout with horizontalExpanded := (m.horizontalExpanded.set row (toggleHState (m.horizontalExpanded.get row) expandLeft)).set row (toggleHState ((m.horizontalExpanded.set row (toggleHState (m.horizontalExpanded.get row) expandLeft)).get row) expandLeft) }).recalculateLayout = m
      rw [HExp2.get_set _ _ _ hr, toggleHState_involutive hcur, HExp2.set_set, HExp2.set_get]
      exact recalc_then_restore_hexp hInv.cacheFix _
    · unfold PaneManager.toggleHorizontalExpansion
      rw [if_neg hr, if_neg hr]

/-- Claim C6 witness: a reachable one-pane manager satisfying the
(amended) involution contract. -/
theorem claim_c6_witness : Reach mgrOne ∧ ToggleInvolutionSpec mgrOne :=
  ⟨reach_mgrOne, claim_c6_toggle_involution mgrOne reach_mgrOne⟩

/-- Claim C6 counterexample: with the top row expanded to the left,
applying `toggle_horizontal_expansion(0, false)` twice ends with the row
unexpanded (`None`), not back at `Some(true)`, and the sub-pane areas
differ from the originals — so the double toggle is not the identity. -/
theorem claim_c6_counterexample :
    Reach mgrHLeft ∧
    mgrHLeft.horizontalExpanded = ⟨some true, none⟩ ∧
    ((mgrHLeft.toggleHorizontalExpansion 0 false).toggleHorizontalExpansion 0
        false).horizontalExpanded = ⟨none, none⟩ ∧
    ((mgrHLeft.toggleHorizontalExpansion 0 false).toggleHorizontalExpansion 0
        false).subPaneAreas ≠ mgrHLeft.subPaneAreas :=
  ⟨reach_mgrHLeft, by decide, by decide, by decide⟩

theorem upArrowGo_some {x y : Nat} {expanded : Expanded4} :
    ∀ (l : List (Nat × Rect)) (idx pos : Nat),
      upArrowGo x y expanded l idx = some pos → expanded.get pos = true ∧ pos < 4 := by
  intro l
  induction l with
  | nil => intro idx pos h; cases h
  | cons p rest ih =>
    obtain ⟨paneId, r⟩ := p
    intro idx pos h
    simp only [upArrowGo] at h
    split at h
    · exact ih _ _ h
    · next hcond =>
      push_neg at hcond
      obtain ⟨h4, hexp⟩ := hcond
      split at h
      · have he : idx = pos := Option.some.inj h
        subst he
        constructor
        · cases hb : expanded.get idx with
          | false => exact absurd hb hexp
          | true => rfl
        · omega
      · exact ih _ _ h

theorem findArrow_some {α : Type} {x y : Nat} {subs : List Rect} :
    ∀ (configs : List (Nat × α × Bool)) (pos : α),
      findArrow x y subs configs = some pos →
      ∃ idx isLeft r, (idx, pos, isLeft) ∈ configs ∧ subs[idx]? = some r ∧
        ¬(r.width = 0 ∨ r.height = 0) ∧ arrowHit x y r isLeft = true := by
  intro configs
  induction configs with
  | nil => intro pos h; cases h
  | cons c rest ih =>
    obtain ⟨idx, a, isLeft⟩ := c
    intro pos h
    simp only [findArrow] at h
    split at h
    · obtain ⟨i2, l2, r2, hm, hrest⟩ := ih pos h
      exact ⟨i2, l2, r2, List.mem_cons_of_mem _ hm, hrest⟩
    · next r heq =>
      split at h
      · obtain ⟨i2, l2, r2, hm, hrest⟩ := ih pos h
        exact ⟨i2, l2, r2, List.mem_cons_of_mem _ hm, hrest⟩
      · next hnz =>
        split at h
        · next hhit =>
          have he : a = pos := Option.some.inj h
          subst he
          exact ⟨idx, isLeft, r, List.mem_cons_self _ _, heq, hnz, hhit⟩
        · obtain ⟨i2, l2, r2, hm, hrest⟩ := ih pos h
          exact ⟨i2, l2, r2, List.mem_cons_of_mem _ hm, hrest⟩

theorem subPane_nonzero_not_expanded {a : Rect} {exp : Expanded4} {hexp : HExp2} {i : Nat}
    (h : ¬((subPaneRect (subPanesArea a) exp hexp i).width = 0 ∨
      (subPaneRect (subPanesArea a) exp hexp i).height = 0)) :
    exp.get (i / 2) = false := by
  by_contra hb
  have ht : exp.get (i / 2) = true := by
    cases hg : exp.get (i / 2) with
    | false => exact absurd hg hb
    | true => rfl
  apply h
  left
  show (subPaneRect (subPanesArea a) exp hexp i).width = 0
  simp [subPaneRect, ht, Rect.zero]

theorem downArrow_not_expanded {m : PaneManager} (hInv : ManagerInv m) {x y : Nat}
    {arrow : ArrowPosition} (h : downArrowAtPosition x y m.subPaneAreas = some arrow) :
    m.expandedPositions.get arrow.panePosition = false ∧ arrow.panePosition < 4 := by
  obtain ⟨idx, isLeft, r, hmem, hget, hnz, hhit⟩ := findArrow_some _ _ h
  cases hsz : m.terminalSize with
  | none =>
    have hce := hInv.cacheEmpty hsz
    have hsubs : m.subPaneAreas = [] := congrArg LayoutCache.subPaneAreas hce
    rw [hsubs] at hget
    simp at hget
  | some a =>
    have hsubs := subPaneAreas_eq hInv hsz
    rw [hsubs] at hget
    simp only [downArrowConfigs, List.mem_cons, List.not_mem_nil, or_false,
      Prod.mk.injEq] at hmem
    rcases hmem with ⟨hi, ha, _⟩ | ⟨hi, ha, _⟩ | ⟨hi, ha, _⟩ | ⟨hi, ha, _⟩ <;>
      subst hi <;> subst ha <;>
      rw [List.getElem?_map, List.getElem?_range (by omega), Option.map_some'] at hget <;>
      have hr := Option.some.inj hget <;> subst hr <;>
      exact ⟨subPane_nonzero_not_expanded hnz, by decide⟩

/-- Claim C4: `handle_click` resolves in a fixed order with first match
winning: (1) an up-arrow hit — which only fires on a currently expanded
slot — collapses that slot; (2) otherwise a down-arrow hit on a corner
sub-pane — which only fires for a currently collapsed slot, since the
sub-panes of expanded slots are zero-sized — expands the associated
primary slot; (3) otherwise a horizontal-arrow hit on an inner sub-pane
toggles horizontal expansion for that sub-pane's row; (4) otherwise the
click falls through to pane focusing, which sets focus to the pane under
the cursor and returns `true` exactly when focus actually changed. -/
theorem claim_c4_click_dispatch (m : PaneManager) (h : Reach m) : ClickDispatchSpec m := by
  have hInv := reach_inv h
  intro x y
  refine ⟨?_, ?_, ?_, ?_⟩
  · intro pos hup
    obtain ⟨hexp, h4⟩ := upArrowGo_some _ _ _ hup
    have hclick : m.handleClick x y = (m.togglePaneExpansion pos, true) := by
      rw [handleClick_eq, hup]
    refine ⟨hexp, hclick, ?_⟩
    rw [hclick]
    show (m.togglePaneExpansion pos).expandedPositions.get pos = false
    unfold PaneManager.togglePaneExpansion
    rw [if_pos h4]
    show (m.expandedPositions.flip pos).get pos = false
    rw [Expanded4.get_flip _ _ h4, hexp]
    rfl
  · intro hup arrow hdown
    obtain ⟨hne, h4⟩ := downArrow_not_expanded hInv hdown
    have hclick : m.handleClick x y = (m.togglePaneExpansion arrow.panePosition, true) := by
      rw [handleClick_eq, hup, hdown]
    refine ⟨hne, hclick, ?_⟩
    rw [hclick]
    show (m.togglePaneExpansion arrow.panePosition).expandedPositions.get arrow.panePosition = true
    unfold PaneManager.togglePaneExpansion
    rw [if_pos h4]
    show (m.expandedPositions.flip arrow.panePosition).get arrow.panePosition = true
    rw [Expanded4.get_flip _ _ h4, hne]
    rfl
  · intro hup hdown arrow hhor
    constructor
    · rw [handleClick_eq, hup, hdown, hhor]
    · cases arrow <;> decide
  · intro hup hdown hhor
    have hfc : m.handleClick x y = m.focusAtPosition x y m.cachedAreas := by
      rw [handleClick_eq, hup, hdown, hhor]
    refine ⟨hfc, ?_, ?_⟩
    · intro paneId hpa
      rw [hfc]
      unfold PaneManager.focusAtPosition
      rw [hpa]
      show (if m.focused ≠ some paneId then ({ m with focused := some paneId }, true) else (m, false)).1.focused = some paneId ∧ ((if m.focused ≠ some paneId then ({ m with focused := some paneId }, true) else (m, false)).2 = true ↔ m.focused ≠ some paneId)
      by_cases hfoc : m.focused ≠ some paneId
      · rw [if_pos hfoc]
        exact ⟨rfl, by simp [hfoc]⟩
      · rw [if_neg hfoc]
        push_neg at hfoc
        exact ⟨hfoc, by simp [hfoc]⟩
    · intro hnone
      rw [hfc]
      unfold PaneManager.focusAtPosition
      rw [hnone]

/-- Claim C4 witness: a reachable manager with a terminal size satisfying
the click-dispatch contract. -/
theorem claim_c4_witness : Reach mgrBase ∧ ClickDispatchSpec mgrBase :=
  ⟨reach_mgrBase, claim_c4_click_dispatch mgrBase reach_mgrBase⟩
